import Mathlib

/-!
Formal model of the Custodian transaction-processing engine.

The Python sources (`custodian/utils.py`, `custodian/processing.py`) are embedded
shallowly: numeric fields become exact rationals, dates and asset codes stay
strings (Python compares date strings lexicographically, which the string order
here mirrors), fallible operations return `Except ProcError`, and the mutable
`Holdings` store becomes an explicitly threaded sorted association list keyed by
`(date, asset)`, mirroring the `SortedDict`.
-/

namespace Custodian

/-- Failure modes of the embedded code.  Each constructor stands for a Python
exception: `divByZero` for `ZeroDivisionError`, `unsetRate` for the
`ValueError` raised by `flip`/`reporting_cost`, `rateLookup` for the wrapped
rate-provider failure, `insufficientFunds` for the insufficient-funds
`Exception`, `duplicateKey` for the `ValueError` in `Holdings.add`, `badKey`
for storing a snapshot with no date (a key the `SortedDict` cannot compare),
`typeError` for a Python `TypeError`, and `outOfFuel` for exhaustion of the
recursion fuel of the embedding (never hit at the fuel used by the theorems). -/
inductive ProcError where
  | divByZero
  | unsetRate
  | rateLookup
  | insufficientFunds
  | duplicateKey
  | badKey
  | typeError
  | outOfFuel
deriving DecidableEq

/-- Embeds the `Transaction` dataclass (utils.py lines 114-124). -/
structure Transaction where
  date : String
  description : String
  base_currency : String
  quote_currency : String
  quantity : ℚ
  price : ℚ
  fees : ℚ := 0
  quote_to_reporting_rate : Option ℚ := none
  note : String := ""
deriving DecidableEq

namespace Transaction

/-- `Transaction.cost` (utils.py line 150): `quantity * price + fees`. -/
def cost (t : Transaction) : ℚ := t.quantity * t.price + t.fees

/-- `Transaction.action` (utils.py lines 136-138). -/
def action (t : Transaction) : String := if 0 < t.quantity then "BUY" else "SELL"

/-- `Transaction.reporting_cost` (utils.py lines 163-165): fails when the
quote-to-reporting rate is unset, otherwise `cost * quote_to_reporting_rate`. -/
def reporting_cost (t : Transaction) : Except ProcError ℚ :=
  match t.quote_to_reporting_rate with
  | none => .error .unsetRate
  | some r => .ok (t.cost * r)

/-- `Transaction.with_effective_price` (utils.py lines 177-180): a copy with
`price := cost / quantity` and `fees := 0`; `ZeroDivisionError` when
`quantity = 0`. -/
def with_effective_price (t : Transaction) : Except ProcError Transaction :=
  if t.quantity = 0 then .error .divByZero
  else .ok { t with price := t.cost / t.quantity, fees := 0 }

/-- `Transaction.flip` (utils.py lines 202-213): fails when the rate is unset
(`ValueError`) and when `price = 0` (`ZeroDivisionError` from `1 / price`).
The `note` field is not forwarded, so it takes its default `""`. -/
def flip (t : Transaction) : Except ProcError Transaction :=
  match t.quote_to_reporting_rate with
  | none => .error .unsetRate
  | some r =>
    if t.price = 0 then .error .divByZero
    else .ok { date := t.date, description := t.description,
               base_currency := t.quote_currency, quote_currency := t.base_currency,
               quantity := -(t.quantity * t.price), price := 1 / t.price,
               fees := t.fees / t.price,
               quote_to_reporting_rate := some (r * t.price), note := "" }

end Transaction

/-- Embeds the `Asset` dataclass (utils.py lines 236-239).  `date` is an
`Option` because `Holdings.get` fabricates a snapshot carrying its query date,
which may be absent. -/
structure Asset where
  date : Option String
  asset : String
  quantity : ℚ := 0
  acb : ℚ := 0
deriving DecidableEq

/-- The capital-gain record built in processing.py lines 91-96. -/
structure Gain where
  date : String
  costBase : ℚ
  grossProceeds : ℚ
  capitalGain : ℚ
deriving DecidableEq

/-- Strict lexicographic comparison of character lists by code point: the
order Python uses on `str`.  (Defined structurally so that it evaluates.) -/
def charsLt : List Char → List Char → Bool
  | [], [] => false
  | [], _ :: _ => true
  | _ :: _, [] => false
  | c :: cs, d :: ds =>
    if c.toNat < d.toNat then true
    else if d.toNat < c.toNat then false
    else charsLt cs ds

/-- Python's `s < t` on strings. -/
def strLt (s t : String) : Prop := charsLt s.data t.data = true

/-- Python's `s <= t` on strings (equivalent to `not (t < s)` for the total
lexicographic order). -/
def strLe (s t : String) : Prop := charsLt t.data s.data = false

instance (s t : String) : Decidable (strLt s t) := by
  unfold strLt; exact inferInstance

instance (s t : String) : Decidable (strLe s t) := by
  unfold strLe; exact inferInstance

/-- `(date, asset)` pairs: the keys of the `SortedDict` in `Holdings`. -/
abbrev Key := String × String

abbrev Entry := Key × Asset

/-- The strict lexicographic order on `(date, asset)` keys, the order in which
the `SortedDict` stores its entries. -/
def keyLt (k k' : Key) : Prop := strLt k.1 k'.1 ∨ (k.1 = k'.1 ∧ strLt k.2 k'.2)

instance (k k' : Key) : Decidable (keyLt k k') := by
  unfold keyLt; exact inferInstance

/-- The date filter of `Holdings.get`: `date is None or key[0] <= date`. -/
def dateOk (dq : Option String) (d : String) : Prop :=
  match dq with
  | none => True
  | some x => strLe d x

instance (dq : Option String) (d : String) : Decidable (dateOk dq d) :=
  match dq with
  | none => .isTrue trivial
  | some x => inferInstanceAs (Decidable (strLe d x))

/-- Ordered insert-or-replace into the sorted entry list: the effect of
`self.historical[key] = asset` on a `SortedDict`. -/
def insertKey (k : Key) (v : Asset) : List Entry → List Entry
  | [] => [(k, v)]
  | e :: rest =>
    if keyLt k e.1 then (k, v) :: e :: rest
    else if k = e.1 then (k, v) :: rest
    else e :: insertKey k v rest

/-- The per-entry test of the loop in `Holdings.get` (utils.py line 319):
`key[1] == asset and (date is None or key[0] <= date)`. -/
def entryMatch (a : String) (dq : Option String) (e : Entry) : Prop :=
  e.1.2 = a ∧ dateOk dq e.1.1

instance (a : String) (dq : Option String) (e : Entry) : Decidable (entryMatch a dq e) := by
  unfold entryMatch; exact inferInstance

/-- The reversed-key walk of `Holdings.get` (utils.py lines 318-320): keys are
walked from the largest down, so the result is the last matching entry of the
ascending list; here the tail (the larger keys) is consulted first. -/
def lookupRev (a : String) (dq : Option String) : List Entry → Option Asset
  | [] => none
  | e :: rest =>
    match lookupRev a dq rest with
    | some v => some v
    | none => if entryMatch a dq e then some e.2 else none

/-- Embeds the `Holdings` class (utils.py lines 242-328): the `SortedDict`
becomes a list of entries sorted by `keyLt`. -/
structure Holdings where
  historical : List Entry
deriving DecidableEq

def Holdings.empty : Holdings := ⟨[]⟩

/-- `Holdings.add` (utils.py lines 284-298): duplicate keys are rejected unless
`overwrite`; a snapshot with no date has a key the `SortedDict` cannot compare
with the string keys, so it is rejected as well (unreachable in processing,
where every stored snapshot is dated). -/
def Holdings.add (h : Holdings) (a : Asset) (overwrite : Bool) : Except ProcError Holdings :=
  match a.date with
  | none => .error .badKey
  | some d =>
    if overwrite = false ∧ ∃ e ∈ h.historical, e.1 = (d, a.asset) then .error .duplicateKey
    else .ok ⟨insertKey (d, a.asset) a h.historical⟩

/-- `Holdings.get` (utils.py lines 300-321): the most recent snapshot for
`asset` passing the date filter, else a zero-initialized snapshot dated by the
query.  The Python `deepcopy` is the identity in this pure embedding. -/
def Holdings.get (h : Holdings) (a : String) (dq : Option String) : Asset :=
  match lookupRev a dq h.historical with
  | some v => v
  | none => { date := dq, asset := a, quantity := 0, acb := 0 }

/-- The `SortedDict` invariant: keys strictly ascend along the list. -/
def SortedE (l : List Entry) : Prop :=
  List.Pairwise (fun e e' : Entry => keyLt e.1 e'.1) l

/-- Well-formedness maintained by the store: keys strictly ascend (the
`SortedDict` invariant) and every snapshot agrees with its key, as `_key`
builds the key from the snapshot's own fields. -/
def Holdings.WF (h : Holdings) : Prop :=
  SortedE h.historical ∧
  ∀ e ∈ h.historical, e.2.date = some e.1.1 ∧ e.2.asset = e.1.2

/-- Modelled from the spec: `processing.py` imports a tolerance-equality helper
`isclose` from a module that is not among the provided sources.  The spec
describes it as a "tolerance-equality comparison utility — a generic numeric
helper" using "a fixed relative/absolute tolerance pair"; it is modelled as the
standard comparison `|a - b| <= max(relTol * max(|a|, |b|), absTol)` with fixed
tolerances. -/
def relTol : ℚ := 1 / 10 ^ 9

/-- The fixed absolute tolerance of `isclose` (see `relTol`). -/
def absTol : ℚ := 1 / 10 ^ 12

/-- Modelled from the spec: the tolerance-equality check used by the
insufficient-funds guard (see `relTol`). -/
def isclose (a b : ℚ) : Bool := |a - b| ≤ max (relTol * max |a| |b|) absTol

/-- A historical daily FX-rate source: `(quote, reporting, date) ↦ rate`, the
lookup contract of `BankofCanadaRates.get_rate`; `none` models a lookup
failure. -/
def RateSource := String → String → String → Option ℚ

/-- The base-side ACB update of `process_transaction` (processing.py lines
78-82): when the base currency is not the reporting currency the per-unit ACB
becomes the quantity-weighted average; the division raises
`ZeroDivisionError` when `quantity + trx.quantity = 0`. -/
def baseUpdated (rc : String) (t : Transaction) (b0 q0 : Asset) : Except ProcError Asset :=
  if t.base_currency = rc then .ok b0
  else if b0.quantity + t.quantity = 0 then .error .divByZero
  else .ok { b0 with
    acb := (b0.quantity * b0.acb + t.cost * q0.acb) / (b0.quantity + t.quantity) }

/-- Steps 5-10 of `process_transaction` (processing.py lines 74-117): the
single-transaction state transition applied to the already normalized (fee
absorbed, rate resolved, flipped-if-sell) transaction: snapshot lookup, base
ACB/quantity update, capital-gain computation, insufficient-funds check,
quote-side spend, and the two overwriting commits (base first, quote second). -/
def settle (rc : String) (t : Transaction) (h : Holdings) : Except ProcError (Option Gain × Holdings) :=
  let b0 := h.get t.base_currency (some t.date)
  let q0 := h.get t.quote_currency (some t.date)
  match baseUpdated rc t b0 q0 with
  | .error e => .error e
  | .ok b1 =>
    let gain : Option Gain :=
      if t.base_currency = rc then
        some { date := t.date, costBase := q0.acb * t.cost,
               grossProceeds := t.quantity,
               capitalGain := t.quantity - q0.acb * t.cost }
      else none
    if q0.quantity < t.cost ∧ isclose q0.quantity t.cost = false then
      .error .insufficientFunds
    else
      match Holdings.add h { b1 with quantity := b1.quantity + t.quantity, date := some t.date } true with
      | .error e => .error e
      | .ok h1 =>
        match Holdings.add h1 { q0 with quantity := q0.quantity - t.cost, date := some t.date } true with
        | .error e => .error e
        | .ok h2 => .ok (gain, h2)

/-- Whether the description contains the substring `"Vest"` (case-sensitive):
the membership test `"Vest" in trx.description` specialized to this fixed
pattern. -/
def hasVest : List Char → Bool
  | 'V' :: 'e' :: 's' :: 't' :: _ => true
  | _ :: rest => hasVest rest
  | [] => false

def containsVest (s : String) : Bool := hasVest s.data

/-- Python's `description.replace("Vest", "Funding")` specialized to this fixed
pattern: every non-overlapping occurrence of `Vest`, scanned left to right, is
replaced by `Funding`. -/
def replaceVF : List Char → List Char
  | 'V' :: 'e' :: 's' :: 't' :: rest =>
    'F' :: 'u' :: 'n' :: 'd' :: 'i' :: 'n' :: 'g' :: replaceVF rest
  | c :: rest => c :: replaceVF rest
  | [] => []

def replaceVestFunding (s : String) : String := ⟨replaceVF s.data⟩

/-- Step 2 of `process_transaction` (processing.py lines 38-49): resolve the
quote-to-reporting rate, returning its value: keep it if already set, use `1`
when the quote currency is the reporting currency, otherwise query the rate
source, wrapping failures. -/
def resolveRateVal (rates : RateSource) (rc : String) (t : Transaction) : Except ProcError ℚ :=
  match t.quote_to_reporting_rate with
  | some r => .ok r
  | none =>
    if t.quote_currency = rc then .ok 1
    else
      match rates t.quote_currency rc t.date with
      | some r => .ok r
      | none => .error .rateLookup

/-- The synthetic employer-funding transaction injected before a vesting
transaction (processing.py lines 54-64), built from the normalized transaction
`t` whose resolved quote-to-reporting rate is `r`. -/
def syntheticFunding (rc : String) (t : Transaction) (r : ℚ) : Transaction :=
  { date := t.date, description := replaceVestFunding t.description,
    base_currency := t.quote_currency, quote_currency := rc,
    quantity := t.cost, price := r, fees := 0,
    quote_to_reporting_rate := some 1, note := "" }

/-- Steps 4-10 of `process_transaction` (processing.py lines 70-117): flip the
transaction when it is a sell order (`quantity < 0`), then settle it. -/
def directionSettle (rc : String) (t : Transaction) (h : Holdings) :
    Except ProcError (Option Gain × Holdings) :=
  match (if t.quantity < 0 then t.flip else .ok t) with
  | .error e => .error e
  | .ok t' => settle rc t' h

/-- Embeds `process_transaction` (processing.py lines 14-117).  The `Nat`
argument is recursion fuel for the self-call on the synthetic funding
transaction (the replaced description contains no further `"Vest"`, so fuel 2
suffices for any vesting transaction); the gain returned by the recursive call
is discarded, exactly as in the source. -/
def processTransaction (rates : RateSource) (rc : String) :
    Nat → Transaction → Holdings → Except ProcError (Option Gain × Holdings)
  | 0, _, _ => .error .outOfFuel
  | fuel + 1, trx, h =>
    match trx.with_effective_price with
    | .error e => .error e
    | .ok t1 =>
      match resolveRateVal rates rc t1 with
      | .error e => .error e
      | .ok r =>
        let t2 := { t1 with quote_to_reporting_rate := some r }
        if containsVest t2.description then
          match processTransaction rates rc fuel (syntheticFunding rc t2 r) h with
          | .error e => .error e
          | .ok (_, h') => directionSettle rc t2 h'
        else directionSettle rc t2 h

/-- Embeds `process_transactions` (processing.py lines 120-149) as written.
Its loop body is `process_transaction(trx, holdings, capgains,
reporting_currency, exchange)`: five positional arguments passed to a
four-parameter function, which raises `TypeError` on the first iteration, so
any nonempty batch fails; moreover no statement ever appends the gain returned
by `process_transaction` to `capgains`, so the gain list could only ever be
returned empty. -/
def process_transactions (trxs : List Transaction) (h : Holdings) :
    Except ProcError (Holdings × List Gain) :=
  match trxs with
  | [] => .ok (h, [])
  | _ :: _ => .error .typeError

/-! ### Concrete data used by witnesses and counterexamples -/

/-- A store holding 100 USD at per-unit ACB 6/5. -/
def usdStore : Holdings := ⟨[(("2020-01-01", "USD"), ⟨some "2020-01-01", "USD", 100, 6/5⟩)]⟩

/-- A (post-normalization) disposal: acquire 130 CAD paying 100 USD. -/
def cadDisposal : Transaction := ⟨"2020-01-02", "sell", "CAD", "USD", 130, 10/13, 0, some 1, ""⟩

/-- A store holding 10 USD at per-unit ACB 5. -/
def selfTradeStore : Holdings := ⟨[(("2020-01-01", "USD"), ⟨some "2020-01-01", "USD", 10, 5⟩)]⟩

/-- A degenerate self-trade: base and quote currency are both USD. -/
def selfTrade : Transaction := ⟨"2020-01-02", "x", "USD", "USD", 2, 2, 0, some 1, ""⟩

/-- A store holding 10 BTC at ACB 5 and 100 EUR at ACB 8. -/
def avgStore : Holdings :=
  ⟨[(("2021-01-01", "BTC"), ⟨some "2021-01-01", "BTC", 10, 5⟩),
    (("2021-01-01", "EUR"), ⟨some "2021-01-01", "EUR", 100, 8⟩)]⟩

/-- Acquire 10 more BTC for 10 EUR (reporting-equivalent unit cost 8). -/
def avgBuy : Transaction := ⟨"2021-01-02", "buy", "BTC", "EUR", 10, 1, 0, some 1, ""⟩

/-- A store with a short USD position of -5 units and ample EUR. -/
def shortStore : Holdings :=
  ⟨[(("2020-01-01", "EUR"), ⟨some "2020-01-01", "EUR", 100, 1⟩),
    (("2020-01-01", "USD"), ⟨some "2020-01-01", "USD", -5, 0⟩)]⟩

/-- Acquire 5 USD paying EUR: the base-side denominator is `-5 + 5 = 0`. -/
def shortBuy : Transaction := ⟨"2020-01-02", "x", "USD", "EUR", 5, 1, 0, some 1, ""⟩

/-- A zero-cost acquisition of 1 BTC (price 0), spendable from an empty store. -/
def freeBuy : Transaction := ⟨"2020-01-02", "x", "BTC", "CAD", 1, 0, 0, some 1, ""⟩

/-- The spec's vesting example: 100 AAPL at 150 USD, USD→CAD rate 1.35. -/
def vestTrx : Transaction := ⟨"2021-06-01", "RSU Vest", "AAPL", "USD", 100, 150, 0, some (27/20), ""⟩

/-- A rate source with no data (the witnesses carry their rates inline). -/
def noRates : RateSource := fun _ _ _ => none

/-! ### Order lemmas for the string and key comparisons -/

theorem charsLt_irrefl (l : List Char) : charsLt l l = false := by
  induction l with
  | nil => rfl
  | cons c cs ih => simp [charsLt, ih]

theorem charsLt_trans {a b c : List Char} (h1 : charsLt a b = true)
    (h2 : charsLt b c = true) : charsLt a c = true := by
  induction a generalizing b c with
  | nil =>
    cases b with
    | nil => simp [charsLt] at h1
    | cons y ys =>
      cases c with
      | nil => simp [charsLt] at h2
      | cons z zs => rfl
  | cons x xs ih =>
    cases b with
    | nil => simp [charsLt] at h1
    | cons y ys =>
      cases c with
      | nil => simp [charsLt] at h2
      | cons z zs =>
        simp only [charsLt] at h1 h2 ⊢
        split_ifs at h1 h2 ⊢ <;>
          first
          | rfl
          | omega
          | exact ih h1 h2

theorem charsLt_eq_of_not {a b : List Char} (h1 : charsLt a b = false)
    (h2 : charsLt b a = false) : a = b := by
  induction a generalizing b with
  | nil =>
    cases b with
    | nil => rfl
    | cons y ys => simp [charsLt] at h1
  | cons x xs ih =>
    cases b with
    | nil => simp [charsLt] at h2
    | cons y ys =>
      rcases Nat.lt_trichotomy x.toNat y.toNat with hxy | hxy | hxy
      · simp [charsLt, hxy] at h1
      · have hx : x = y := Char.eq_of_val_eq (UInt32.toNat.inj hxy)
        subst hx
        simp [charsLt, Nat.lt_irrefl] at h1 h2
        exact congrArg (x :: ·) (ih h1 h2)
      · simp [charsLt, hxy] at h2

theorem strEq_of_data {s t : String} (h : s.data = t.data) : s = t := by
  cases s; cases t; exact congrArg String.mk h

theorem strLt_irrefl (s : String) : ¬ strLt s s := by
  simp [strLt, charsLt_irrefl]

theorem strLt_trans {a b c : String} (h1 : strLt a b) (h2 : strLt b c) : strLt a c :=
  charsLt_trans h1 h2

theorem strLt_asymm {a b : String} (h : strLt a b) : ¬ strLt b a :=
  fun h' => strLt_irrefl a (strLt_trans h h')

theorem strEq_of_not_lt {a b : String} (h1 : ¬ strLt a b) (h2 : ¬ strLt b a) : a = b :=
  strEq_of_data (charsLt_eq_of_not (by simpa [strLt] using h1) (by simpa [strLt] using h2))

theorem strLe_iff_not_lt {a b : String} : strLe a b ↔ ¬ strLt b a := by
  simp [strLe, strLt]

theorem strLe_refl (a : String) : strLe a a :=
  strLe_iff_not_lt.mpr (strLt_irrefl a)

theorem strLe_of_lt {a b : String} (h : strLt a b) : strLe a b :=
  strLe_iff_not_lt.mpr (strLt_asymm h)

theorem strLt_of_le_of_ne {a b : String} (h : strLe a b) (hne : a ≠ b) : strLt a b := by
  by_contra hlt
  exact hne (strEq_of_not_lt hlt (strLe_iff_not_lt.mp h))

theorem strLe_trans {a b c : String} (h1 : strLe a b) (h2 : strLe b c) : strLe a c := by
  rw [strLe_iff_not_lt] at h1 h2 ⊢
  intro hca
  rcases Classical.em (a = b) with hab | hab
  · exact h2 (hab ▸ hca)
  · exact h2 (strLt_trans hca (strLt_of_le_of_ne (strLe_iff_not_lt.mpr h1) hab))

theorem strLe_of_eq {a b : String} (h : a = b) : strLe a b := h ▸ strLe_refl a

theorem keyLt_irrefl (k : Key) : ¬ keyLt k k := by
  rintro (h | ⟨-, h⟩) <;> exact strLt_irrefl _ h

theorem keyLt_trans {a b c : Key} (h1 : keyLt a b) (h2 : keyLt b c) : keyLt a c := by
  rcases h1 with h1 | ⟨e1, h1⟩ <;> rcases h2 with h2 | ⟨e2, h2⟩
  · exact Or.inl (strLt_trans h1 h2)
  · exact Or.inl (e2 ▸ h1)
  · exact Or.inl (e1 ▸ h2)
  · exact Or.inr ⟨e1.trans e2, strLt_trans h1 h2⟩

theorem keyLt_asymm {a b : Key} (h : keyLt a b) : ¬ keyLt b a :=
  fun h' => keyLt_irrefl a (keyLt_trans h h')

theorem keyLt_connex {a b : Key} (h1 : ¬ keyLt a b) (h2 : ¬ keyLt b a) : a = b := by
  rw [keyLt] at h1 h2
  push_neg at h1 h2
  have hd : a.1 = b.1 := strEq_of_not_lt h1.1 h2.1
  have ha : a.2 = b.2 := strEq_of_not_lt (h1.2 hd) (h2.2 hd.symm)
  exact Prod.ext hd ha

theorem dateOk_of_le {dq : Option String} {t d : String} (hle : strLe t d)
    (h : dateOk dq d) : dateOk dq t := by
  cases dq with
  | none => trivial
  | some x => exact strLe_trans hle h

theorem dateOk_refl (d : String) : dateOk (some d) d := strLe_refl d

/-! ### Sorted-insert and reverse-lookup lemmas -/

theorem sortedE_nil : SortedE [] := List.Pairwise.nil

theorem mem_insertKey_self (k : Key) (v : Asset) (l : List Entry) :
    (k, v) ∈ insertKey k v l := by
  induction l with
  | nil => simp [insertKey]
  | cons e rest ih =>
    by_cases h1 : keyLt k e.1
    · simp [insertKey, h1]
    · by_cases h2 : k = e.1
      · simp only [insertKey, if_neg h1, if_pos h2]
        exact List.mem_cons_self _ _
      · simp only [insertKey, if_neg h1, if_neg h2]
        exact List.mem_cons_of_mem e ih

theorem mem_insertKey_weak {x : Entry} {k : Key} {v : Asset} {l : List Entry}
    (h : x ∈ insertKey k v l) : x = (k, v) ∨ x ∈ l := by
  induction l with
  | nil => simpa [insertKey] using h
  | cons e rest ih =>
    by_cases h1 : keyLt k e.1
    · simp only [insertKey, if_pos h1, List.mem_cons] at h
      rcases h with h | h | h
      · exact Or.inl h
      · exact Or.inr (List.mem_cons.mpr (Or.inl h))
      · exact Or.inr (List.mem_cons.mpr (Or.inr h))
    · by_cases h2 : k = e.1
      · simp only [insertKey, if_neg h1, if_pos h2, List.mem_cons] at h
        rcases h with h | h
        · exact Or.inl h
        · exact Or.inr (List.mem_cons.mpr (Or.inr h))
      · simp only [insertKey, if_neg h1, if_neg h2, List.mem_cons] at h
        rcases h with h | h
        · exact Or.inr (List.mem_cons.mpr (Or.inl h))
        · rcases ih h with h' | h'
          · exact Or.inl h'
          · exact Or.inr (List.mem_cons.mpr (Or.inr h'))

theorem mem_insertKey_of_ne {x : Entry} {k : Key} {v : Asset} {l : List Entry}
    (hx : x ∈ l) (hne : x.1 ≠ k) : x ∈ insertKey k v l := by
  induction l with
  | nil => cases hx
  | cons e rest ih =>
    by_cases h1 : keyLt k e.1
    · simp only [insertKey, if_pos h1]
      exact List.mem_cons_of_mem _ hx
    · rcases List.mem_cons.mp hx with hx' | hx'
      · by_cases h2 : k = e.1
        · exact absurd (hx' ▸ h2.symm) hne
        · simp only [insertKey, if_neg h1, if_neg h2]
          exact hx' ▸ List.mem_cons_self e _
      · by_cases h2 : k = e.1
        · simp only [insertKey, if_neg h1, if_pos h2]
          exact List.mem_cons_of_mem _ hx'
        · simp only [insertKey, if_neg h1, if_neg h2]
          exact List.mem_cons_of_mem e (ih hx')

theorem sortedE_insertKey {l : List Entry} (k : Key) (v : Asset) (hs : SortedE l) :
    SortedE (insertKey k v l) := by
  induction l with
  | nil => exact List.pairwise_singleton _ _
  | cons e rest ih =>
    rcases List.pairwise_cons.mp hs with ⟨hhead, htail⟩
    by_cases h1 : keyLt k e.1
    · simp only [insertKey, if_pos h1]
      refine List.pairwise_cons.mpr ⟨?_, hs⟩
      intro x hx
      rcases List.mem_cons.mp hx with hx' | hx'
      · exact hx' ▸ h1
      · exact keyLt_trans h1 (hhead x hx')
    · by_cases h2 : k = e.1
      · simp only [insertKey, if_neg h1, if_pos h2]
        refine List.pairwise_cons.mpr ⟨?_, htail⟩
        intro x hx
        exact h2 ▸ hhead x hx
      · have hek : keyLt e.1 k := by
          by_contra hek
          exact h2 (keyLt_connex h1 hek)
        simp only [insertKey, if_neg h1, if_neg h2]
        refine List.pairwise_cons.mpr ⟨?_, ih htail⟩
        intro x hx
        rcases mem_insertKey_weak hx with hx' | hx'
        · exact hx' ▸ hek
        · exact hhead x hx'

theorem mem_insertKey_iff {x : Entry} {k : Key} {v : Asset} {l : List Entry}
    (hs : SortedE l) : x ∈ insertKey k v l ↔ x = (k, v) ∨ (x ∈ l ∧ x.1 ≠ k) := by
  constructor
  · intro h
    induction l with
    | nil =>
      simp only [insertKey, List.mem_singleton] at h
      exact Or.inl h
    | cons e rest ih =>
      rcases List.pairwise_cons.mp hs with ⟨hhead, htail⟩
      by_cases h1 : keyLt k e.1
      · simp only [insertKey, if_pos h1, List.mem_cons] at h
        rcases h with h | h | h
        · exact Or.inl h
        · refine Or.inr ⟨List.mem_cons.mpr (Or.inl h), ?_⟩
          intro hke
          rw [h] at hke
          exact keyLt_irrefl k (hke ▸ h1)
        · refine Or.inr ⟨List.mem_cons.mpr (Or.inr h), ?_⟩
          intro hke
          have hkx : keyLt k x.1 := keyLt_trans h1 (hhead x h)
          rw [hke] at hkx
          exact keyLt_irrefl k hkx
      · by_cases h2 : k = e.1
        · simp only [insertKey, if_neg h1, if_pos h2, List.mem_cons] at h
          rcases h with h | h
          · exact Or.inl h
          · refine Or.inr ⟨List.mem_cons.mpr (Or.inr h), ?_⟩
            intro hke
            have hx : keyLt e.1 x.1 := hhead x h
            rw [hke, ← h2] at hx
            exact keyLt_irrefl e.1 (h2 ▸ hx)
        · have hek : keyLt e.1 k := by
            by_contra hek
            exact h2 (keyLt_connex h1 hek)
          simp only [insertKey, if_neg h1, if_neg h2, List.mem_cons] at h
          rcases h with h | h
          · refine Or.inr ⟨List.mem_cons.mpr (Or.inl h), ?_⟩
            intro hke
            rw [h] at hke
            exact keyLt_irrefl k (hke ▸ hek)
          · rcases ih htail h with h' | h'
            · exact Or.inl h'
            · exact Or.inr ⟨List.mem_cons.mpr (Or.inr h'.1), h'.2⟩
  · rintro (h | ⟨hmem, hne⟩)
    · exact h ▸ mem_insertKey_self k v l
    · exact mem_insertKey_of_ne hmem hne

/-- Characterization of the reverse walk: on a sorted list it either finds no
matching entry, or returns the value of the unique maximal matching entry. -/
theorem lookupRev_spec (a : String) (dq : Option String) {l : List Entry} (hs : SortedE l) :
    (lookupRev a dq l = none ∧ ∀ e ∈ l, ¬ entryMatch a dq e) ∨
    (∃ e, e ∈ l ∧ entryMatch a dq e ∧ lookupRev a dq l = some e.2 ∧
      ∀ e' ∈ l, entryMatch a dq e' → keyLt e'.1 e.1 ∨ e' = e) := by
  induction l with
  | nil => exact Or.inl ⟨rfl, by simp⟩
  | cons e rest ih =>
    rcases List.pairwise_cons.mp hs with ⟨hhead, htail⟩
    rcases ih htail with ⟨hnone, hnomatch⟩ | ⟨m, hm, hmatch, hlook, hmax⟩
    · by_cases hme : entryMatch a dq e
      · refine Or.inr ⟨e, List.mem_cons_self e rest, hme, ?_, ?_⟩
        · simp [lookupRev, hnone, hme]
        · intro e' he' hm'
          rcases List.mem_cons.mp he' with he' | he'
          · exact Or.inr he'
          · exact absurd hm' (hnomatch e' he')
      · refine Or.inl ⟨?_, ?_⟩
        · simp [lookupRev, hnone, hme]
        · intro e' he'
          rcases List.mem_cons.mp he' with he' | he'
          · exact he' ▸ hme
          · exact hnomatch e' he'
    · refine Or.inr ⟨m, List.mem_cons.mpr (Or.inr hm), hmatch, ?_, ?_⟩
      · simp [lookupRev, hlook]
      · intro e' he' hm'
        rcases List.mem_cons.mp he' with he' | he'
        · exact Or.inl (he' ▸ hhead m hm)
        · exact hmax e' he' hm'

theorem lookupRev_eq_none {a : String} {dq : Option String} {l : List Entry}
    (hnone : ∀ e ∈ l, ¬ entryMatch a dq e) : lookupRev a dq l = none := by
  induction l with
  | nil => rfl
  | cons e rest ih =>
    have hr : lookupRev a dq rest = none :=
      ih fun e' he' => hnone e' (List.mem_cons.mpr (Or.inr he'))
    simp [lookupRev, hr, hnone e (List.mem_cons_self e rest)]

/-- Determinism direction: any maximal matching entry is the one returned. -/
theorem lookupRev_eq_of_max {a : String} {dq : Option String} {l : List Entry}
    (hs : SortedE l) {m : Entry} (hm : m ∈ l) (hmatch : entryMatch a dq m)
    (hmax : ∀ e' ∈ l, entryMatch a dq e' → keyLt e'.1 m.1 ∨ e' = m) :
    lookupRev a dq l = some m.2 := by
  rcases lookupRev_spec a dq hs with ⟨-, hnomatch⟩ | ⟨e, he, hematch, hlook, hemax⟩
  · exact absurd hmatch (hnomatch m hm)
  · rcases hmax e he hematch with hlt | heq
    · rcases hemax m hm hmatch with hlt' | heq'
      · exact absurd hlt (keyLt_asymm hlt')
      · exact heq' ▸ hlook
    · exact heq ▸ hlook

/-- Reading back the just-inserted snapshot at its own key date. -/
theorem get_insertKey_self {l : List Entry} (hs : SortedE l) (d a : String) (v : Asset) :
    Holdings.get ⟨insertKey (d, a) v l⟩ a (some d) = v := by
  have h2 : lookupRev a (some d) (insertKey (d, a) v l) = some v := by
    apply lookupRev_eq_of_max (m := ((d, a), v)) (sortedE_insertKey _ v hs)
      (mem_insertKey_self _ _ _) ⟨rfl, dateOk_refl d⟩
    intro e' he' hm'
    rcases (mem_insertKey_iff hs).mp he' with he'' | ⟨hel, hne⟩
    · exact Or.inr he''
    · have hnd : e'.1.1 ≠ d := fun hd => hne (Prod.ext hd hm'.1)
      exact Or.inl (Or.inl (strLt_of_le_of_ne hm'.2 hnd))
  simp [Holdings.get, h2]

/-- Inserting a snapshot of a different asset leaves every query unchanged. -/
theorem get_insertKey_other {l : List Entry} (hs : SortedE l) {k : Key} (v : Asset)
    {a : String} (hne : k.2 ≠ a) (dq : Option String) :
    Holdings.get ⟨insertKey k v l⟩ a dq = Holdings.get ⟨l⟩ a dq := by
  rcases lookupRev_spec a dq hs with ⟨hnone, hnomatch⟩ | ⟨m, hm, hmatch, hlook, hmax⟩
  · have h2 : lookupRev a dq (insertKey k v l) = none := by
      apply lookupRev_eq_none
      intro e he
      rcases mem_insertKey_weak he with he' | he'
      · intro hm'
        rw [he'] at hm'
        exact hne hm'.1
      · exact hnomatch e he'
    simp [Holdings.get, hnone, h2]
  · have hmk : m.1 ≠ k := fun h => hne (h ▸ hmatch.1)
    have h2 : lookupRev a dq (insertKey k v l) = some m.2 := by
      apply lookupRev_eq_of_max (sortedE_insertKey k v hs) (mem_insertKey_of_ne hm hmk) hmatch
      intro e' he' hm'
      rcases mem_insertKey_weak he' with he'' | he''
      · exfalso
        rw [he''] at hm'
        exact hne hm'.1
      · exact hmax e' he'' hm'
    simp [Holdings.get, hlook, h2]

/-- Inserting a snapshot whose ACB equals the stored ACB at its key date leaves
the ACB seen by every query unchanged. -/
theorem get_insertKey_acb {l : List Entry} (hs : SortedE l) (d a : String) {v : Asset}
    (hacb : v.acb = (Holdings.get ⟨l⟩ a (some d)).acb) (dq : Option String) :
    (Holdings.get ⟨insertKey (d, a) v l⟩ a dq).acb = (Holdings.get ⟨l⟩ a dq).acb := by
  by_cases hdq : dateOk dq d
  case neg =>
    rcases lookupRev_spec a dq hs with ⟨hnone, hnomatch⟩ | ⟨m, hm, hmatch, hlook, hmax⟩
    · have h2 : lookupRev a dq (insertKey (d, a) v l) = none := by
        apply lookupRev_eq_none
        intro e he
        rcases mem_insertKey_weak he with he' | he'
        · intro hm'
          rw [he'] at hm'
          exact hdq hm'.2
        · exact hnomatch e he'
      simp [Holdings.get, hnone, h2]
    · have hmk : m.1 ≠ (d, a) := by
        intro h
        have h2' := hmatch.2
        rw [h] at h2'
        exact hdq h2'
      have h2 : lookupRev a dq (insertKey (d, a) v l) = some m.2 := by
        apply lookupRev_eq_of_max (sortedE_insertKey _ v hs) (mem_insertKey_of_ne hm hmk) hmatch
        intro e' he' hm'
        rcases mem_insertKey_weak he' with he'' | he''
        · exfalso
          rw [he''] at hm'
          exact hdq hm'.2
        · exact hmax e' he'' hm'
      simp [Holdings.get, hlook, h2]
  case pos =>
    rcases lookupRev_spec a dq hs with ⟨hnone, hnomatch⟩ | ⟨m, hm, hmatch, hlook, hmax⟩
    · have hl : lookupRev a (some d) l = none := by
        apply lookupRev_eq_none
        intro e he hm'
        exact hnomatch e he ⟨hm'.1, dateOk_of_le hm'.2 hdq⟩
      have h2 : lookupRev a dq (insertKey (d, a) v l) = some v := by
        apply lookupRev_eq_of_max (m := ((d, a), v)) (sortedE_insertKey _ v hs)
          (mem_insertKey_self _ _ _) ⟨rfl, hdq⟩
        intro e' he' hm'
        rcases (mem_insertKey_iff hs).mp he' with he'' | ⟨hel, hne⟩
        · exact Or.inr he''
        · exact absurd hm' (hnomatch e' hel)
      have hv0 : v.acb = 0 := by
        rw [hacb]
        simp [Holdings.get, hl]
      simp [Holdings.get, hnone, h2, hv0]
    · by_cases hlt : strLt d m.1.1
      · have hmk : m.1 ≠ (d, a) := by
          intro h
          rw [h] at hlt
          exact strLt_irrefl d hlt
        have h2 : lookupRev a dq (insertKey (d, a) v l) = some m.2 := by
          apply lookupRev_eq_of_max (sortedE_insertKey _ v hs) (mem_insertKey_of_ne hm hmk) hmatch
          intro e' he' hm'
          rcases (mem_insertKey_iff hs).mp he' with he'' | ⟨hel, hne⟩
          · left
            rw [he'']
            exact Or.inl hlt
          · exact hmax e' hel hm'
        simp [Holdings.get, hlook, h2]
      · have hmd : strLe m.1.1 d := strLe_iff_not_lt.mpr hlt
        have h2 : lookupRev a dq (insertKey (d, a) v l) = some v := by
          apply lookupRev_eq_of_max (m := ((d, a), v)) (sortedE_insertKey _ v hs)
            (mem_insertKey_self _ _ _) ⟨rfl, hdq⟩
          intro e' he' hm'
          rcases (mem_insertKey_iff hs).mp he' with he'' | ⟨hel, hne⟩
          · exact Or.inr he''
          · left
            have hle : strLe e'.1.1 m.1.1 := by
              rcases hmax e' hel hm' with hlt' | heq'
              · rcases hlt' with hlt' | ⟨heq'', -⟩
                · exact strLe_of_lt hlt'
                · exact strLe_of_eq heq''
              · exact strLe_of_eq (by rw [heq'])
            have hled : strLe e'.1.1 d := strLe_trans hle hmd
            have hnd : e'.1.1 ≠ d := fun hd => hne (Prod.ext hd hm'.1)
            exact Or.inl (strLt_of_le_of_ne hled hnd)
        have hld : lookupRev a (some d) l = some m.2 := by
          refine lookupRev_eq_of_max hs hm ⟨hmatch.1, ?_⟩ ?_
          · exact hmd
          · intro e' he' hm'
            exact hmax e' he' ⟨hm'.1, dateOk_of_le hm'.2 hdq⟩
        have hv : v.acb = m.2.acb := by
          rw [hacb]
          simp [Holdings.get, hld]
        simp [Holdings.get, hlook, h2, hv]

/-! ### Unfolding lemmas for the processing step -/

theorem get_asset {h : Holdings} (hwf : h.WF) (a : String) (dq : Option String) :
    (h.get a dq).asset = a := by
  rcases lookupRev_spec a dq hwf.1 with ⟨hnone, -⟩ | ⟨m, hm, hmatch, hlook, -⟩
  · simp [Holdings.get, hnone]
  · have hma := (hwf.2 m hm).2
    simp [Holdings.get, hlook, hma, hmatch.1]

theorem add_some_ok (h : Holdings) (a : Asset) (d : String) (hd : a.date = some d) :
    h.add a true = .ok ⟨insertKey (d, a.asset) a h.historical⟩ := by
  simp [Holdings.add, hd]

theorem baseUpdated_ok_inv {rc : String} {t : Transaction} {b0 q0 b1 : Asset}
    (h : baseUpdated rc t b0 q0 = .ok b1) :
    (t.base_currency = rc ∧ b1 = b0) ∨
    (t.base_currency ≠ rc ∧ b0.quantity + t.quantity ≠ 0 ∧
      b1 = { b0 with
        acb := (b0.quantity * b0.acb + t.cost * q0.acb) / (b0.quantity + t.quantity) }) := by
  unfold baseUpdated at h
  by_cases h1 : t.base_currency = rc
  · simp only [h1, if_true] at h
    exact Or.inl ⟨h1, (Except.ok.injEq _ _ ▸ h).symm⟩
  · by_cases h2 : b0.quantity + t.quantity = 0
    · simp [h1, h2] at h
    · simp only [h1, h2, if_false, if_neg] at h
      refine Or.inr ⟨h1, h2, ?_⟩
      simpa using h.symm

/-- Commit step as an equation: adding a dated snapshot with overwrite
always succeeds and performs the sorted insert-or-replace. -/
theorem add_mk_ok (h : Holdings) (d s : String) (q c : ℚ) :
    h.add { date := some d, asset := s, quantity := q, acb := c } true =
      .ok ⟨insertKey (d, s) { date := some d, asset := s, quantity := q, acb := c }
        h.historical⟩ := by
  simp [Holdings.add]

/-- Inversion of a successful `settle`: the guards passed and the result is the
two overwriting inserts over the original store (base first, quote second). -/
theorem settle_ok_inv {rc : String} {t : Transaction} {h : Holdings} {g : Option Gain}
    {h' : Holdings} (hwf : h.WF) (hok : settle rc t h = .ok (g, h')) :
    ∃ b1, baseUpdated rc t (h.get t.base_currency (some t.date))
        (h.get t.quote_currency (some t.date)) = .ok b1 ∧
      ¬((h.get t.quote_currency (some t.date)).quantity < t.cost ∧
          isclose (h.get t.quote_currency (some t.date)).quantity t.cost = false) ∧
      g = (if t.base_currency = rc then
            some { date := t.date,
                   costBase := (h.get t.quote_currency (some t.date)).acb * t.cost,
                   grossProceeds := t.quantity,
                   capitalGain := t.quantity -
                     (h.get t.quote_currency (some t.date)).acb * t.cost }
           else none) ∧
      h' = ⟨insertKey (t.date, t.quote_currency)
              { date := some t.date, asset := t.quote_currency,
                quantity := (h.get t.quote_currency (some t.date)).quantity - t.cost,
                acb := (h.get t.quote_currency (some t.date)).acb }
              (insertKey (t.date, t.base_currency)
                { date := some t.date, asset := t.base_currency,
                  quantity := b1.quantity + t.quantity, acb := b1.acb }
                h.historical)⟩ := by
  have hqa : (h.get t.quote_currency (some t.date)).asset = t.quote_currency :=
    get_asset hwf _ _
  have hba : (h.get t.base_currency (some t.date)).asset = t.base_currency :=
    get_asset hwf _ _
  simp only [settle] at hok
  cases hbu : baseUpdated rc t (h.get t.base_currency (some t.date))
      (h.get t.quote_currency (some t.date)) with
  | error e =>
    rw [hbu] at hok
    simp at hok
  | ok b1 =>
    rw [hbu] at hok
    dsimp only at hok
    have hb1a : b1.asset = t.base_currency := by
      rcases baseUpdated_ok_inv hbu with ⟨-, hb⟩ | ⟨-, -, hb⟩ <;> rw [hb] <;> exact hba
    by_cases hins : (h.get t.quote_currency (some t.date)).quantity < t.cost ∧
        isclose (h.get t.quote_currency (some t.date)).quantity t.cost = false
    · rw [if_pos hins] at hok
      simp at hok
    · rw [if_neg hins] at hok
      rw [hb1a, hqa, add_mk_ok] at hok
      dsimp only at hok
      rw [add_mk_ok] at hok
      dsimp only at hok
      simp only [Except.ok.injEq, Prod.mk.injEq] at hok
      exact ⟨b1, rfl, hins, hok.1.symm, hok.2.symm⟩

/-- Forward evaluation of `settle` once the base-side update has succeeded. -/
theorem settle_run {rc : String} {t : Transaction} {h : Holdings} {b1 : Asset} (hwf : h.WF)
    (hb1 : baseUpdated rc t (h.get t.base_currency (some t.date))
      (h.get t.quote_currency (some t.date)) = .ok b1) :
    settle rc t h =
      if (h.get t.quote_currency (some t.date)).quantity < t.cost ∧
          isclose (h.get t.quote_currency (some t.date)).quantity t.cost = false then
        .error .insufficientFunds
      else
        .ok ((if t.base_currency = rc then
                some { date := t.date,
                       costBase := (h.get t.quote_currency (some t.date)).acb * t.cost,
                       grossProceeds := t.quantity,
                       capitalGain := t.quantity -
                         (h.get t.quote_currency (some t.date)).acb * t.cost }
              else none),
             ⟨insertKey (t.date, t.quote_currency)
                { date := some t.date, asset := t.quote_currency,
                  quantity := (h.get t.quote_currency (some t.date)).quantity - t.cost,
                  acb := (h.get t.quote_currency (some t.date)).acb }
                (insertKey (t.date, t.base_currency)
                  { date := some t.date, asset := t.base_currency,
                    quantity := b1.quantity + t.quantity, acb := b1.acb }
                  h.historical)⟩) := by
  have hqa : (h.get t.quote_currency (some t.date)).asset = t.quote_currency :=
    get_asset hwf _ _
  have hb1a : b1.asset = t.base_currency := by
    rcases baseUpdated_ok_inv hb1 with ⟨-, hb⟩ | ⟨-, -, hb⟩ <;> rw [hb] <;>
      exact get_asset hwf _ _
  simp only [settle]
  rw [hb1]
  dsimp only
  by_cases hins : (h.get t.quote_currency (some t.date)).quantity < t.cost ∧
      isclose (h.get t.quote_currency (some t.date)).quantity t.cost = false
  · rw [if_pos hins, if_pos hins]
  · rw [if_neg hins, if_neg hins, hb1a, hqa, add_mk_ok]
    dsimp only
    rw [add_mk_ok]

instance (l : List Entry) : Decidable (SortedE l) := by
  unfold SortedE; exact inferInstance

instance (h : Holdings) : Decidable h.WF := by
  unfold Holdings.WF; exact inferInstance

/-- The cost-preservation of fee absorption, shared helper: folding the fees
into the price leaves the transaction's total cost unchanged. -/
theorem effective_cost {t : Transaction} (hq : t.quantity ≠ 0) :
    Transaction.cost { t with price := t.cost / t.quantity, fees := 0 } = t.cost := by
  simp only [Transaction.cost]
  field_simp

/-! ### Claim theorems -/

/-- C9: on a well-formed store, `Holdings.get asset asOf` returns the stored
snapshot for `asset` with the most recent date passing the `date <= asOf`
filter (every filter when `asOf` is absent), and when no stored snapshot
matches it returns a snapshot for `asset` dated by the query with quantity 0
and ACB 0.  (The Python `deepcopy` of the returned snapshot is the identity in
this pure embedding, where no mutation can alias the store.) -/
theorem holdings_get_spec (h : Holdings) (a : String) (dq : Option String) (hwf : h.WF) :
    (∃ e ∈ h.historical, h.get a dq = e.2 ∧ e.2.asset = a ∧ e.2.date = some e.1.1 ∧
        dateOk dq e.1.1 ∧
        ∀ e' ∈ h.historical, e'.1.2 = a → dateOk dq e'.1.1 → strLe e'.1.1 e.1.1) ∨
    ((∀ e ∈ h.historical, ¬(e.1.2 = a ∧ dateOk dq e.1.1)) ∧
      h.get a dq = { date := dq, asset := a, quantity := 0, acb := 0 }) := by
  rcases lookupRev_spec a dq hwf.1 with ⟨hnone, hnomatch⟩ | ⟨m, hm, hmatch, hlook, hmax⟩
  · exact Or.inr ⟨hnomatch, by simp [Holdings.get, hnone]⟩
  · refine Or.inl ⟨m, hm, by simp [Holdings.get, hlook],
      (hwf.2 m hm).2.trans hmatch.1, (hwf.2 m hm).1, hmatch.2, ?_⟩
    intro e' he' h1 h2
    rcases hmax e' he' ⟨h1, h2⟩ with hlt | heq
    · rcases hlt with hlt | ⟨heq2, -⟩
      · exact strLe_of_lt hlt
      · exact strLe_of_eq heq2
    · exact strLe_of_eq (by rw [heq])

/-- Witness for C9 at a concrete three-snapshot store: the `USD` query as of
`2020-02-20` matches the `2020-01-10` snapshot, not the later `2020-03-01`
one nor the `EUR` one. -/
theorem holdings_get_spec_witness :
    (⟨[(("2020-01-10", "USD"), ⟨some "2020-01-10", "USD", 7, 3⟩),
       (("2020-02-05", "EUR"), ⟨some "2020-02-05", "EUR", 1, 1⟩),
       (("2020-03-01", "USD"), ⟨some "2020-03-01", "USD", 9, 4⟩)]⟩ : Holdings).WF ∧
    ((∃ e ∈ ([(("2020-01-10", "USD"), ⟨some "2020-01-10", "USD", 7, 3⟩),
       (("2020-02-05", "EUR"), ⟨some "2020-02-05", "EUR", 1, 1⟩),
       (("2020-03-01", "USD"), ⟨some "2020-03-01", "USD", 9, 4⟩)] : List Entry),
        (⟨[(("2020-01-10", "USD"), ⟨some "2020-01-10", "USD", 7, 3⟩),
           (("2020-02-05", "EUR"), ⟨some "2020-02-05", "EUR", 1, 1⟩),
           (("2020-03-01", "USD"), ⟨some "2020-03-01", "USD", 9, 4⟩)]⟩ : Holdings).get
          "USD" (some "2020-02-20") = e.2 ∧ e.2.asset = "USD" ∧
        e.2.date = some e.1.1 ∧ dateOk (some "2020-02-20") e.1.1 ∧
        ∀ e' ∈ ([(("2020-01-10", "USD"), ⟨some "2020-01-10", "USD", 7, 3⟩),
           (("2020-02-05", "EUR"), ⟨some "2020-02-05", "EUR", 1, 1⟩),
           (("2020-03-01", "USD"), ⟨some "2020-03-01", "USD", 9, 4⟩)] : List Entry),
          e'.1.2 = "USD" → dateOk (some "2020-02-20") e'.1.1 → strLe e'.1.1 e.1.1) ∨
     ((∀ e ∈ ([(("2020-01-10", "USD"), ⟨some "2020-01-10", "USD", 7, 3⟩),
        (("2020-02-05", "EUR"), ⟨some "2020-02-05", "EUR", 1, 1⟩),
        (("2020-03-01", "USD"), ⟨some "2020-03-01", "USD", 9, 4⟩)] : List Entry),
         ¬(e.1.2 = "USD" ∧ dateOk (some "2020-02-20") e.1.1)) ∧
       (⟨[(("2020-01-10", "USD"), ⟨some "2020-01-10", "USD", 7, 3⟩),
          (("2020-02-05", "EUR"), ⟨some "2020-02-05", "EUR", 1, 1⟩),
          (("2020-03-01", "USD"), ⟨some "2020-03-01", "USD", 9, 4⟩)]⟩ : Holdings).get
         "USD" (some "2020-02-20") =
         { date := some "2020-02-20", asset := "USD", quantity := 0, acb := 0 })) :=
  ⟨by decide, holdings_get_spec _ "USD" (some "2020-02-20") (by decide)⟩

/-- C7: `with_effective_price` returns a copy whose price is `cost/quantity`
and whose fees are 0, the copy's total cost equals the original cost, and a
zero-quantity transaction fails with the division-by-zero error. -/
theorem with_effective_price_spec (t : Transaction) :
    (t.quantity ≠ 0 →
      ∃ t', t.with_effective_price = .ok t' ∧ t'.price = t.cost / t.quantity ∧
        t'.fees = 0 ∧ t'.cost = t.cost) ∧
    (t.quantity = 0 → t.with_effective_price = .error .divByZero) := by
  constructor
  · intro hq
    exact ⟨_, by simp [Transaction.with_effective_price, hq], rfl, rfl, effective_cost hq⟩
  · intro hq
    simp [Transaction.with_effective_price, hq]

/-- Witness for C7 at quantity 2, price 3, fees 1 (cost 7). -/
theorem with_effective_price_witness :
    (Transaction.mk "d" "x" "A" "B" 2 3 1 none "").quantity ≠ 0 ∧
    (∃ t', (Transaction.mk "d" "x" "A" "B" 2 3 1 none "").with_effective_price = .ok t' ∧
      t'.price = (Transaction.mk "d" "x" "A" "B" 2 3 1 none "").cost /
        (Transaction.mk "d" "x" "A" "B" 2 3 1 none "").quantity ∧
      t'.fees = 0 ∧ t'.cost = (Transaction.mk "d" "x" "A" "B" 2 3 1 none "").cost) :=
  ⟨by norm_num, (with_effective_price_spec _).1 (by norm_num)⟩

/-- Counterexample to C6 as stated: a transaction with the rate set but price
0 does not flip into a transaction at all; the division `1/price` raises a
division-by-zero error.  (`for every transaction with quote_to_reporting_rate
set, flip() returns a transaction` fails at this input.) -/
theorem flip_zero_price_cex :
    Transaction.flip ⟨"2020-01-01", "x", "A", "B", 1, 0, 0, some 1, ""⟩ =
      .error .divByZero := by
  norm_num [Transaction.flip]

/-- C6 (amended): for every transaction with `quote_to_reporting_rate` set and
nonzero price, `flip` returns the transaction with swapped currencies,
`quantity' = -(quantity × price)`, `price' = 1/price`, `fees' = fees/price`
and `rate' = rate × price`; it fails when the rate is unset (and, the
amendment, raises division-by-zero when `price = 0`). -/
theorem flip_spec (t : Transaction) :
    (∀ r : ℚ, t.quote_to_reporting_rate = some r → t.price ≠ 0 →
      t.flip = .ok
        { date := t.date, description := t.description,
          base_currency := t.quote_currency, quote_currency := t.base_currency,
          quantity := -(t.quantity * t.price), price := 1 / t.price,
          fees := t.fees / t.price, quote_to_reporting_rate := some (r * t.price),
          note := "" }) ∧
    (t.quote_to_reporting_rate = none → t.flip = .error .unsetRate) := by
  constructor
  · intro r hr hp
    simp [Transaction.flip, hr, hp]
  · intro hr
    simp [Transaction.flip, hr]

/-- Witness for C6 at quantity 2, price 3, fees 6, rate 5. -/
theorem flip_spec_witness :
    (Transaction.mk "d" "x" "A" "B" 2 3 6 (some 5) "").quote_to_reporting_rate = some 5 ∧
    (Transaction.mk "d" "x" "A" "B" 2 3 6 (some 5) "").price ≠ 0 ∧
    (Transaction.mk "d" "x" "A" "B" 2 3 6 (some 5) "").flip =
      .ok
        { date := "d", description := "x", base_currency := "B", quote_currency := "A",
          quantity := -(2 * 3), price := 1 / 3, fees := 6 / 3,
          quote_to_reporting_rate := some (5 * 3), note := "" } :=
  ⟨rfl, by norm_num, (flip_spec _).1 5 rfl (by norm_num)⟩

/-- C10: for a transaction with zero fees, nonzero price and the rate set,
`flip` succeeds and negates the reporting-currency cost; and fee
normalization (`with_effective_price`) always produces zero fees, so this
applies to every flip the processor performs (the processor flips only the
normalized transaction). -/
theorem flip_reporting_negates (t : Transaction) (r : ℚ) (hf : t.fees = 0)
    (hp : t.price ≠ 0) (hr : t.quote_to_reporting_rate = some r) :
    (∃ t', t.flip = .ok t' ∧ t.reporting_cost = .ok (t.cost * r) ∧
      t'.reporting_cost = .ok (-(t.cost * r))) ∧
    (∀ u u' : Transaction, u.with_effective_price = .ok u' → u'.fees = 0) := by
  constructor
  · refine ⟨
      { date := t.date, description := t.description,
        base_currency := t.quote_currency, quote_currency := t.base_currency,
        quantity := -(t.quantity * t.price), price := 1 / t.price,
        fees := t.fees / t.price, quote_to_reporting_rate := some (r * t.price),
        note := "" },
      by simp [Transaction.flip, hr, hp], by simp [Transaction.reporting_cost, hr], ?_⟩
    simp only [Transaction.reporting_cost, Transaction.cost, Except.ok.injEq]
    rw [hf]
    field_simp
    ring
  · intro u u' hu
    unfold Transaction.with_effective_price at hu
    by_cases h0 : u.quantity = 0
    · simp [h0] at hu
    · simp only [h0, if_false, if_neg, Except.ok.injEq] at hu
      rw [← hu]

/-- Witness for C10 at quantity 2, price 3, fees 0, rate 5. -/
theorem flip_reporting_negates_witness :
    (Transaction.mk "d" "x" "A" "B" 2 3 0 (some 5) "").fees = 0 ∧
    (Transaction.mk "d" "x" "A" "B" 2 3 0 (some 5) "").price ≠ 0 ∧
    (Transaction.mk "d" "x" "A" "B" 2 3 0 (some 5) "").quote_to_reporting_rate = some 5 ∧
    ((∃ t', (Transaction.mk "d" "x" "A" "B" 2 3 0 (some 5) "").flip = .ok t' ∧
        (Transaction.mk "d" "x" "A" "B" 2 3 0 (some 5) "").reporting_cost =
          .ok ((Transaction.mk "d" "x" "A" "B" 2 3 0 (some 5) "").cost * 5) ∧
        t'.reporting_cost =
          .ok (-((Transaction.mk "d" "x" "A" "B" 2 3 0 (some 5) "").cost * 5))) ∧
      (∀ u u' : Transaction, u.with_effective_price = .ok u' → u'.fees = 0)) :=
  ⟨rfl, by norm_num, rfl, flip_reporting_negates _ 5 rfl (by norm_num) rfl⟩

/-- Variant of `effective_cost` with the rate also updated, as the processor
does before building the synthetic funding transaction. -/
theorem effective_cost' {t : Transaction} (hq : t.quantity ≠ 0) (r' : Option ℚ) :
    Transaction.cost
      { t with price := t.cost / t.quantity, fees := 0,
               quote_to_reporting_rate := r' } = t.cost := by
  simp only [Transaction.cost]
  field_simp

/-- C5: when the (fee-normalized, rate-resolved) description contains
`"Vest"`, `processTransaction` first recursively processes the synthetic
funding transaction — same date, description with `"Vest"` replaced by
`"Funding"`, base currency the original quote currency, quote currency the
reporting currency, quantity the original transaction's cost, price the
original quote-to-reporting rate, no fees, rate 1 — and only then proceeds
with the original (normalized) transaction on the resulting holdings. -/
theorem processTransaction_vest (rates : RateSource) (rc : String) (fuel : Nat)
    (trx : Transaction) (h : Holdings) (r : ℚ)
    (hq : trx.quantity ≠ 0) (hr : trx.quote_to_reporting_rate = some r)
    (hv : containsVest trx.description = true) :
    processTransaction rates rc (fuel + 1) trx h =
      match processTransaction rates rc fuel
        { date := trx.date, description := replaceVestFunding trx.description,
          base_currency := trx.quote_currency, quote_currency := rc,
          quantity := trx.cost, price := r, fees := 0,
          quote_to_reporting_rate := some 1, note := "" } h with
      | .error e => .error e
      | .ok (_, h') => directionSettle rc
          { trx with price := trx.cost / trx.quantity, fees := 0,
                     quote_to_reporting_rate := some r } h' := by
  have ht1 : trx.with_effective_price =
      .ok { trx with price := trx.cost / trx.quantity, fees := 0 } := by
    simp [Transaction.with_effective_price, hq]
  have hrr : resolveRateVal rates rc
      { trx with price := trx.cost / trx.quantity, fees := 0 } = .ok r := by
    simp [resolveRateVal, hr]
  have hsynth : syntheticFunding rc
      { trx with price := trx.cost / trx.quantity, fees := 0,
                 quote_to_reporting_rate := some r } r =
      { date := trx.date, description := replaceVestFunding trx.description,
        base_currency := trx.quote_currency, quote_currency := rc,
        quantity := trx.cost, price := r, fees := 0,
        quote_to_reporting_rate := some 1, note := "" } := by
    simp [syntheticFunding, Transaction.mk.injEq, effective_cost' hq (some r)]
  simp only [processTransaction, ht1]
  rw [hrr]
  dsimp only
  rw [if_pos hv, hsynth]

/-- Witness for C5: the spec's `"RSU Vest"` transaction (100 AAPL at 150 USD,
rate 27/20) is processed by first processing the synthetic `"RSU Funding"`
leg. -/
theorem processTransaction_vest_witness :
    vestTrx.quantity ≠ 0 ∧ vestTrx.quote_to_reporting_rate = some (27/20) ∧
    containsVest vestTrx.description = true ∧
    processTransaction noRates "CAD" (1 + 1) vestTrx Holdings.empty =
      match processTransaction noRates "CAD" 1
        { date := vestTrx.date, description := replaceVestFunding vestTrx.description,
          base_currency := vestTrx.quote_currency, quote_currency := "CAD",
          quantity := vestTrx.cost, price := 27/20, fees := 0,
          quote_to_reporting_rate := some 1, note := "" } Holdings.empty with
      | .error e => .error e
      | .ok (_, h') => directionSettle "CAD"
          { vestTrx with price := vestTrx.cost / vestTrx.quantity, fees := 0,
                         quote_to_reporting_rate := some (27/20) } h' :=
  ⟨by norm_num [vestTrx], rfl, by decide,
    processTransaction_vest noRates "CAD" 1 vestTrx Holdings.empty (27/20)
      (by norm_num [vestTrx]) rfl (by decide)⟩

/-- C2: a successful `settle` emits a gain record exactly when the
(post-normalization) base currency is the reporting currency; the emitted
record's cost base is the quote asset's pre-transaction per-unit ACB times
the transaction's cost, its gross proceeds are the transaction's quantity,
and its capital gain is gross proceeds minus cost base.  (`settle` is the
post-normalization core of `process_transaction`, lines 74-117.) -/
theorem settle_gain_spec {rc : String} {t : Transaction} {h : Holdings} {g : Option Gain}
    {h' : Holdings} (hwf : h.WF) (hok : settle rc t h = .ok (g, h')) :
    (g.isSome ↔ t.base_currency = rc) ∧
    ∀ rec : Gain, g = some rec →
      rec.costBase = (h.get t.quote_currency (some t.date)).acb * t.cost ∧
      rec.grossProceeds = t.quantity ∧
      rec.capitalGain = rec.grossProceeds - rec.costBase := by
  rcases settle_ok_inv hwf hok with ⟨b1, -, -, hg, -⟩
  subst hg
  by_cases hb : t.base_currency = rc
  · refine ⟨by simp [hb], ?_⟩
    intro rec hrec
    rw [if_pos hb, Option.some.injEq] at hrec
    rw [← hrec]
    exact ⟨rfl, rfl, rfl⟩
  · refine ⟨by simp [hb], ?_⟩
    intro rec hrec
    rw [if_neg hb] at hrec
    cases hrec

/-- Witness for C2: disposing of 100 USD (ACB 6/5) for 130 CAD yields the
gain record (costBase 120, grossProceeds 130, capitalGain 10). -/
theorem settle_gain_spec_witness :
    usdStore.WF ∧
    settle "CAD" cadDisposal usdStore =
      .ok (some ⟨"2020-01-02", 120, 130, 10⟩,
        ⟨[(("2020-01-01", "USD"), ⟨some "2020-01-01", "USD", 100, 6/5⟩),
          (("2020-01-02", "CAD"), ⟨some "2020-01-02", "CAD", 130, 0⟩),
          (("2020-01-02", "USD"), ⟨some "2020-01-02", "USD", 0, 6/5⟩)]⟩) ∧
    (((some (⟨"2020-01-02", 120, 130, 10⟩ : Gain)).isSome ↔
        cadDisposal.base_currency = "CAD") ∧
      ∀ rec : Gain, some (⟨"2020-01-02", 120, 130, 10⟩ : Gain) = some rec →
        rec.costBase =
          (usdStore.get cadDisposal.quote_currency (some cadDisposal.date)).acb *
            cadDisposal.cost ∧
        rec.grossProceeds = cadDisposal.quantity ∧
        rec.capitalGain = rec.grossProceeds - rec.costBase) := by
  have hwf : usdStore.WF := by decide
  have hok : settle "CAD" cadDisposal usdStore =
      .ok (some ⟨"2020-01-02", 120, 130, 10⟩,
        ⟨[(("2020-01-01", "USD"), ⟨some "2020-01-01", "USD", 100, 6/5⟩),
          (("2020-01-02", "CAD"), ⟨some "2020-01-02", "CAD", 130, 0⟩),
          (("2020-01-02", "USD"), ⟨some "2020-01-02", "USD", 0, 6/5⟩)]⟩) := by
    norm_num +decide [settle, baseUpdated, Holdings.get, lookupRev, entryMatch, dateOk,
      isclose, relTol, absTol, Transaction.cost, Holdings.add, insertKey, keyLt, strLt,
      strLe, charsLt, usdStore, cadDisposal]
  exact ⟨hwf, hok, settle_gain_spec hwf hok⟩

/-- Counterexample to C3 as stated: a successfully processed self-trade
(base = quote = USD ≠ reporting currency) ends with the quote-side commit
overwriting the base-side update at the same `(date, asset)` key: the stored
quantity is `10 - cost = 6` instead of `10 + 2`, and the stored ACB stays `5`
instead of the weighted average `(10*5 + 4*5)/(10 + 2)`. -/
theorem settle_acb_update_cex :
    settle "CAD" selfTrade selfTradeStore =
      .ok (none, ⟨[(("2020-01-01", "USD"), ⟨some "2020-01-01", "USD", 10, 5⟩),
        (("2020-01-02", "USD"), ⟨some "2020-01-02", "USD", 6, 5⟩)]⟩) ∧
    (Holdings.get ⟨[(("2020-01-01", "USD"), ⟨some "2020-01-01", "USD", 10, 5⟩),
        (("2020-01-02", "USD"), ⟨some "2020-01-02", "USD", 6, 5⟩)]⟩
      "USD" (some "2020-01-02")).quantity = 6 ∧
    (Holdings.get ⟨[(("2020-01-01", "USD"), ⟨some "2020-01-01", "USD", 10, 5⟩),
        (("2020-01-02", "USD"), ⟨some "2020-01-02", "USD", 6, 5⟩)]⟩
      "USD" (some "2020-01-02")).acb = 5 ∧
    ¬((6 : ℚ) = 10 + 2) ∧
    ¬((5 : ℚ) = (10 * 5 + selfTrade.cost * 5) / (10 + 2)) := by
  refine ⟨?_, ?_, ?_, by norm_num, by norm_num [selfTrade, Transaction.cost]⟩ <;>
    norm_num +decide [settle, baseUpdated, Holdings.get, lookupRev, entryMatch, dateOk,
      isclose, relTol, absTol, Transaction.cost, Holdings.add, insertKey, keyLt, strLt,
      strLe, charsLt, selfTrade, selfTradeStore]

/-- C3 (amended): for a successful `settle` of a transaction whose base and
quote currencies differ, if the base currency is not the reporting currency
the stored base snapshot's new per-unit ACB is the quantity-weighted average
`(q_b*acb_b + cost*acb_q)/(q_b + quantity)` and its quantity grows by the
transaction's quantity; if the base currency is the reporting currency its
ACB is unchanged.  The amendment restricts the first part to transactions
with base ≠ quote: on a self-trade the quote-side commit overwrites the
base-side update (`settle_acb_update_cex`). -/
theorem settle_acb_update {rc : String} {t : Transaction} {h : Holdings} {g : Option Gain}
    {h' : Holdings} (hwf : h.WF) (hok : settle rc t h = .ok (g, h')) :
    (t.base_currency ≠ rc → t.base_currency ≠ t.quote_currency →
      (h'.get t.base_currency (some t.date)).acb =
        ((h.get t.base_currency (some t.date)).quantity *
            (h.get t.base_currency (some t.date)).acb +
          t.cost * (h.get t.quote_currency (some t.date)).acb) /
        ((h.get t.base_currency (some t.date)).quantity + t.quantity) ∧
      (h'.get t.base_currency (some t.date)).quantity =
        (h.get t.base_currency (some t.date)).quantity + t.quantity) ∧
    (t.base_currency = rc →
      (h'.get t.base_currency (some t.date)).acb =
        (h.get t.base_currency (some t.date)).acb) := by
  rcases settle_ok_inv hwf hok with ⟨b1, hbu, -, -, hh⟩
  subst hh
  constructor
  · intro hne hbq
    have hget : Holdings.get ⟨insertKey (t.date, t.quote_currency)
          { date := some t.date, asset := t.quote_currency,
            quantity := (h.get t.quote_currency (some t.date)).quantity - t.cost,
            acb := (h.get t.quote_currency (some t.date)).acb }
          (insertKey (t.date, t.base_currency)
            { date := some t.date, asset := t.base_currency,
              quantity := b1.quantity + t.quantity, acb := b1.acb }
            h.historical)⟩ t.base_currency (some t.date) =
        { date := some t.date, asset := t.base_currency,
          quantity := b1.quantity + t.quantity, acb := b1.acb } := by
      rw [get_insertKey_other (sortedE_insertKey _ _ hwf.1) _ (fun hc => hbq hc.symm)]
      exact get_insertKey_self hwf.1 _ _ _
    rcases baseUpdated_ok_inv hbu with ⟨hrc, -⟩ | ⟨-, -, hb⟩
    · exact absurd hrc hne
    · rw [hget, hb]
      exact ⟨rfl, rfl⟩
  · intro hrc
    rcases baseUpdated_ok_inv hbu with ⟨-, hb⟩ | ⟨hne, -, -⟩
    swap
    · exact absurd hrc hne
    by_cases hbq : t.base_currency = t.quote_currency
    · rw [hbq, get_insertKey_self (sortedE_insertKey _ _ hwf.1) _ _ _]
    · have hget : Holdings.get ⟨insertKey (t.date, t.quote_currency)
            { date := some t.date, asset := t.quote_currency,
              quantity := (h.get t.quote_currency (some t.date)).quantity - t.cost,
              acb := (h.get t.quote_currency (some t.date)).acb }
            (insertKey (t.date, t.base_currency)
              { date := some t.date, asset := t.base_currency,
                quantity := b1.quantity + t.quantity, acb := b1.acb }
              h.historical)⟩ t.base_currency (some t.date) =
          { date := some t.date, asset := t.base_currency,
            quantity := b1.quantity + t.quantity, acb := b1.acb } := by
        rw [get_insertKey_other (sortedE_insertKey _ _ hwf.1) _ (fun hc => hbq hc.symm)]
        exact get_insertKey_self hwf.1 _ _ _
      rw [hget, hb]

/-- Witness for C3 at the spec's average-cost example: 10 units at ACB 5 plus
10 units at reporting-equivalent unit cost 8 yields ACB `(10*5+10*8)/20 = 6.5`
and quantity 20. -/
theorem settle_acb_update_witness :
    avgStore.WF ∧
    settle "CAD" avgBuy avgStore =
      .ok (none, ⟨[(("2021-01-01", "BTC"), ⟨some "2021-01-01", "BTC", 10, 5⟩),
        (("2021-01-01", "EUR"), ⟨some "2021-01-01", "EUR", 100, 8⟩),
        (("2021-01-02", "BTC"), ⟨some "2021-01-02", "BTC", 20, 13/2⟩),
        (("2021-01-02", "EUR"), ⟨some "2021-01-02", "EUR", 90, 8⟩)]⟩) ∧
    avgBuy.base_currency ≠ "CAD" ∧ avgBuy.base_currency ≠ avgBuy.quote_currency ∧
    (Holdings.get ⟨[(("2021-01-01", "BTC"), ⟨some "2021-01-01", "BTC", 10, 5⟩),
        (("2021-01-01", "EUR"), ⟨some "2021-01-01", "EUR", 100, 8⟩),
        (("2021-01-02", "BTC"), ⟨some "2021-01-02", "BTC", 20, 13/2⟩),
        (("2021-01-02", "EUR"), ⟨some "2021-01-02", "EUR", 90, 8⟩)]⟩
      avgBuy.base_currency (some avgBuy.date)).acb =
      ((avgStore.get avgBuy.base_currency (some avgBuy.date)).quantity *
          (avgStore.get avgBuy.base_currency (some avgBuy.date)).acb +
        avgBuy.cost * (avgStore.get avgBuy.quote_currency (some avgBuy.date)).acb) /
      ((avgStore.get avgBuy.base_currency (some avgBuy.date)).quantity + avgBuy.quantity) ∧
    (Holdings.get ⟨[(("2021-01-01", "BTC"), ⟨some "2021-01-01", "BTC", 10, 5⟩),
        (("2021-01-01", "EUR"), ⟨some "2021-01-01", "EUR", 100, 8⟩),
        (("2021-01-02", "BTC"), ⟨some "2021-01-02", "BTC", 20, 13/2⟩),
        (("2021-01-02", "EUR"), ⟨some "2021-01-02", "EUR", 90, 8⟩)]⟩
      avgBuy.base_currency (some avgBuy.date)).quantity =
      (avgStore.get avgBuy.base_currency (some avgBuy.date)).quantity + avgBuy.quantity := by
  have hwf : avgStore.WF := by decide
  have hok : settle "CAD" avgBuy avgStore =
      .ok (none, ⟨[(("2021-01-01", "BTC"), ⟨some "2021-01-01", "BTC", 10, 5⟩),
        (("2021-01-01", "EUR"), ⟨some "2021-01-01", "EUR", 100, 8⟩),
        (("2021-01-02", "BTC"), ⟨some "2021-01-02", "BTC", 20, 13/2⟩),
        (("2021-01-02", "EUR"), ⟨some "2021-01-02", "EUR", 90, 8⟩)]⟩) := by
    norm_num +decide [settle, baseUpdated, Holdings.get, lookupRev, entryMatch, dateOk,
      isclose, relTol, absTol, Transaction.cost, Holdings.add, insertKey, keyLt, strLt,
      strLe, charsLt, avgStore, avgBuy]
  have hmain := settle_acb_update hwf hok
  exact ⟨hwf, hok, by decide, by decide,
    (hmain.1 (by decide) (by decide)).1, (hmain.1 (by decide) (by decide)).2⟩

/-- Counterexample to C4 as stated: with ample quote-side funds (100 EUR
held, cost 5) the claim asserts success, but the base-side ACB update divides
by zero (stored USD quantity -5 plus transaction quantity 5), so `settle`
raises the division-by-zero error instead, before the funds check. -/
theorem settle_insufficient_funds_cex :
    settle "CAD" shortBuy shortStore = .error .divByZero ∧
    (shortStore.get shortBuy.quote_currency (some shortBuy.date)).quantity = 100 ∧
    shortBuy.cost = 5 ∧ ¬((100 : ℚ) < 5) := by
  refine ⟨?_, ?_, by norm_num [shortBuy, Transaction.cost], by norm_num⟩ <;>
    norm_num +decide [settle, baseUpdated, Holdings.get, lookupRev, entryMatch, dateOk,
      isclose, relTol, absTol, Transaction.cost, Holdings.add, insertKey, keyLt, strLt,
      strLe, charsLt, shortBuy, shortStore]

/-- C4 (amended): provided the base-side ACB update does not divide by zero
(old base quantity plus transaction quantity is nonzero whenever the base
currency is not the reporting currency), `settle` raises the
insufficient-funds error exactly when the quote holding's quantity is
strictly below the transaction cost and not approximately equal to it under
the tolerance check; otherwise it succeeds, the stored quote quantity drops
by the cost, and the quote snapshot is dated by the transaction. -/
theorem settle_insufficient_funds {rc : String} {t : Transaction} {h : Holdings}
    (hwf : h.WF)
    (hden : t.base_currency ≠ rc →
      (h.get t.base_currency (some t.date)).quantity + t.quantity ≠ 0) :
    ((settle rc t h = .error .insufficientFunds) ↔
      ((h.get t.quote_currency (some t.date)).quantity < t.cost ∧
        isclose (h.get t.quote_currency (some t.date)).quantity t.cost = false)) ∧
    (¬((h.get t.quote_currency (some t.date)).quantity < t.cost ∧
        isclose (h.get t.quote_currency (some t.date)).quantity t.cost = false) →
      ∃ g h', settle rc t h = .ok (g, h') ∧
        (h'.get t.quote_currency (some t.date)).quantity =
          (h.get t.quote_currency (some t.date)).quantity - t.cost ∧
        (h'.get t.quote_currency (some t.date)).date = some t.date) := by
  have hex : ∃ b1, baseUpdated rc t (h.get t.base_currency (some t.date))
      (h.get t.quote_currency (some t.date)) = .ok b1 := by
    unfold baseUpdated
    by_cases hrc : t.base_currency = rc
    · rw [if_pos hrc]
      exact ⟨_, rfl⟩
    · rw [if_neg hrc, if_neg (hden hrc)]
      exact ⟨_, rfl⟩
  rcases hex with ⟨b1, hb1⟩
  have hrun := settle_run hwf hb1
  by_cases hins : (h.get t.quote_currency (some t.date)).quantity < t.cost ∧
      isclose (h.get t.quote_currency (some t.date)).quantity t.cost = false
  · rw [if_pos hins] at hrun
    exact ⟨⟨fun _ => hins, fun _ => hrun⟩, fun hn => absurd hins hn⟩
  · rw [if_neg hins] at hrun
    refine ⟨⟨fun herr => ?_, fun hc => absurd hc hins⟩, fun _ => ?_⟩
    · rw [hrun] at herr
      simp at herr
    · refine ⟨_, _, hrun, ?_, ?_⟩
      · rw [get_insertKey_self (sortedE_insertKey _ _ hwf.1) _ _ _]
      · rw [get_insertKey_self (sortedE_insertKey _ _ hwf.1) _ _ _]

/-- Witness for C4: a zero-cost acquisition from the empty store passes the
funds check (0 < 0 is false) and succeeds, leaving the quote quantity 0 - 0
dated by the transaction. -/
theorem settle_insufficient_funds_witness :
    Holdings.empty.WF ∧
    (freeBuy.base_currency ≠ "CAD" →
      (Holdings.empty.get freeBuy.base_currency (some freeBuy.date)).quantity +
        freeBuy.quantity ≠ 0) ∧
    (((settle "CAD" freeBuy Holdings.empty = .error .insufficientFunds) ↔
      ((Holdings.empty.get freeBuy.quote_currency (some freeBuy.date)).quantity <
          freeBuy.cost ∧
        isclose (Holdings.empty.get freeBuy.quote_currency (some freeBuy.date)).quantity
          freeBuy.cost = false)) ∧
    (¬((Holdings.empty.get freeBuy.quote_currency (some freeBuy.date)).quantity <
          freeBuy.cost ∧
        isclose (Holdings.empty.get freeBuy.quote_currency (some freeBuy.date)).quantity
          freeBuy.cost = false) →
      ∃ g h', settle "CAD" freeBuy Holdings.empty = .ok (g, h') ∧
        (h'.get freeBuy.quote_currency (some freeBuy.date)).quantity =
          (Holdings.empty.get freeBuy.quote_currency (some freeBuy.date)).quantity -
            freeBuy.cost ∧
        (h'.get freeBuy.quote_currency (some freeBuy.date)).date = some freeBuy.date)) := by
  have hden : freeBuy.base_currency ≠ "CAD" →
      (Holdings.empty.get freeBuy.base_currency (some freeBuy.date)).quantity +
        freeBuy.quantity ≠ 0 := by
    intro _
    norm_num +decide [Holdings.empty, Holdings.get, lookupRev, freeBuy]
  exact ⟨by decide, hden, settle_insufficient_funds (by decide) hden⟩

/-- C8: a successful `settle` changes the ACB answered by any store query
(any asset, any as-of date) only when the queried asset is the
(post-normalization) base currency of the transaction and that base currency
differs from the reporting currency; in particular the quote (spend) side
keeps its per-unit ACB at every query. -/
theorem settle_acb_only_base {rc : String} {t : Transaction} {h : Holdings} {g : Option Gain}
    {h' : Holdings} (hwf : h.WF) (hok : settle rc t h = .ok (g, h'))
    (a : String) (dq : Option String)
    (hna : ¬(a = t.base_currency ∧ t.base_currency ≠ rc)) :
    (h'.get a dq).acb = (h.get a dq).acb := by
  rcases settle_ok_inv hwf hok with ⟨b1, hbu, -, -, hh⟩
  subst hh
  have stepA : ∀ a' : String, ¬(a' = t.base_currency ∧ t.base_currency ≠ rc) →
      ∀ dq' : Option String, (Holdings.get ⟨insertKey (t.date, t.base_currency)
          { date := some t.date, asset := t.base_currency,
            quantity := b1.quantity + t.quantity, acb := b1.acb }
          h.historical⟩ a' dq').acb = (h.get a' dq').acb := by
    intro a' hna' dq'
    by_cases hab : a' = t.base_currency
    · have hrc : t.base_currency = rc := by
        by_contra hrc
        exact hna' ⟨hab, hrc⟩
      rcases baseUpdated_ok_inv hbu with ⟨-, hb⟩ | ⟨hne, -, -⟩
      swap
      · exact absurd hrc hne
      subst hab
      apply get_insertKey_acb hwf.1
      rw [hb]
    · rw [get_insertKey_other hwf.1 _ (fun hc => hab hc.symm)]
  have hl1 : SortedE (insertKey (t.date, t.base_currency)
      { date := some t.date, asset := t.base_currency,
        quantity := b1.quantity + t.quantity, acb := b1.acb } h.historical) :=
    sortedE_insertKey _ _ hwf.1
  by_cases haq : a = t.quote_currency
  · subst haq
    have hacb :
        ({ date := some t.date, asset := t.quote_currency,
           quantity := (h.get t.quote_currency (some t.date)).quantity - t.cost,
           acb := (h.get t.quote_currency (some t.date)).acb } : Asset).acb =
          (Holdings.get ⟨insertKey (t.date, t.base_currency)
            { date := some t.date, asset := t.base_currency,
              quantity := b1.quantity + t.quantity, acb := b1.acb }
            h.historical⟩ t.quote_currency (some t.date)).acb := by
      rw [stepA t.quote_currency hna (some t.date)]
    rw [get_insertKey_acb hl1 t.date t.quote_currency hacb dq,
      stepA t.quote_currency hna dq]
  · rw [get_insertKey_other hl1 _ (fun hc => haq hc.symm), stepA a hna dq]

/-- Witness for C8 at the C2 scenario: the disposal's quote asset USD keeps
its ACB at the latest-query (`asOf` absent) after settlement. -/
theorem settle_acb_only_base_witness :
    usdStore.WF ∧
    settle "CAD" cadDisposal usdStore =
      .ok (some ⟨"2020-01-02", 120, 130, 10⟩,
        ⟨[(("2020-01-01", "USD"), ⟨some "2020-01-01", "USD", 100, 6/5⟩),
          (("2020-01-02", "CAD"), ⟨some "2020-01-02", "CAD", 130, 0⟩),
          (("2020-01-02", "USD"), ⟨some "2020-01-02", "USD", 0, 6/5⟩)]⟩) ∧
    ¬(("USD" : String) = cadDisposal.base_currency ∧ cadDisposal.base_currency ≠ "CAD") ∧
    (Holdings.get ⟨[(("2020-01-01", "USD"), ⟨some "2020-01-01", "USD", 100, 6/5⟩),
        (("2020-01-02", "CAD"), ⟨some "2020-01-02", "CAD", 130, 0⟩),
        (("2020-01-02", "USD"), ⟨some "2020-01-02", "USD", 0, 6/5⟩)]⟩ "USD" none).acb =
      (usdStore.get "USD" none).acb := by
  have hwf : usdStore.WF := by decide
  have hok : settle "CAD" cadDisposal usdStore =
      .ok (some ⟨"2020-01-02", 120, 130, 10⟩,
        ⟨[(("2020-01-01", "USD"), ⟨some "2020-01-01", "USD", 100, 6/5⟩),
          (("2020-01-02", "CAD"), ⟨some "2020-01-02", "CAD", 130, 0⟩),
          (("2020-01-02", "USD"), ⟨some "2020-01-02", "USD", 0, 6/5⟩)]⟩) := by
    norm_num +decide [settle, baseUpdated, Holdings.get, lookupRev, entryMatch, dateOk,
      isclose, relTol, absTol, Transaction.cost, Holdings.add, insertKey, keyLt, strLt,
      strLe, charsLt, usdStore, cadDisposal]
  exact ⟨hwf, hok, by decide, settle_acb_only_base hwf hok "USD" none (by decide)⟩

/-- C1: `process_transactions` as written cannot drive the processor or
collect gains: its loop calls `process_transaction` with five positional
arguments against a four-parameter signature, a `TypeError` on the first
transaction, so every nonempty batch fails (and the gain returned by
`process_transaction` is never appended to `capgains` in any case); only the
empty batch returns, with an empty gain list. -/
theorem process_transactions_bug :
    process_transactions [⟨"2020-01-01", "t", "CAD", "CAD", 1, 1, 0, some 1, ""⟩]
        Holdings.empty = .error .typeError ∧
    process_transactions [] Holdings.empty = .ok (Holdings.empty, []) :=
  ⟨rfl, rfl⟩

end Custodian
